import Mathlib

set_option maxRecDepth 8192

/-!
Verification of the StarBED resource-pressure harness
(`c.py`, `FN.py`, `d.py`, `b/b.py`, `b/finumpy.py`, `fibonacci.py`).

The Python sources are shallowly embedded: the numeric registers of the
overflow-safe accumulator (Python floats) are modelled as exact rationals,
loops take an explicit fuel plus a time-indexed view of the write-once stop
flag, allocation (`bytearray`, `np.ones`, `list.append`) is modelled by an
oracle telling whether each successive allocation request succeeds, and a
failing allocation raises the `MemoryError` path of the source.
-/

namespace StarBed

/-- Configuration constant `MEMORY_LIMIT_PERCENT = 95` (c.py line 12). -/
def MEMORY_LIMIT_PERCENT : ℚ := 95

/-- Configuration constant `BATCH_SIZE = 50000` (c.py line 14). -/
def BATCH_SIZE : Nat := 50000

/-- Configuration constant `THRESHOLD = 1e300` (c.py line 15), the
overflow-avoidance threshold, modelled by its exact value `10^300`. -/
def THRESHOLD : ℚ := 10 ^ 300

/-- Configuration constant `SCALE_FACTOR = 1e-150` (c.py line 16), modelled
by its exact value `10^-150`. -/
def SCALE_FACTOR : ℚ := 1 / 10 ^ 150

/-- Configuration constant `CHUNK_SIZE_MB = 100` (FN.py line 16). -/
def CHUNK_SIZE_MB : Nat := 100

/-- Configuration constant `CHUNK_MB = 64` (d.py line 4). -/
def CHUNK_MB : Nat := 64

/-- The largest finite IEEE-754 double, `(2^53 - 1) * 2^971`.  A Python
float computation whose exact value stays strictly below this bound never
produces the infinity sentinel. -/
def DOUBLE_MAX : ℚ := (2 ^ 53 - 1) * 2 ^ 971

/-- The two registers `a`, `b` of the overflow-safe accumulator
(c.py line 107 `a, b = 1.0, 1.0`). -/
structure FibState where
  a : ℚ
  b : ℚ
deriving DecidableEq, Repr

/-- Initial accumulator registers `a, b = 1.0, 1.0` (c.py line 107). -/
def initFib : FibState := ⟨1, 1⟩

/-- The raw Fibonacci step `a, b = b, a + b` (c.py line 114). -/
def rawStep (s : FibState) : FibState := ⟨s.b, s.a + s.b⟩

/-- The rescale `a *= SCALE_FACTOR; b *= SCALE_FACTOR` (c.py lines 116-117). -/
def rescale (s : FibState) : FibState :=
  ⟨s.a * SCALE_FACTOR, s.b * SCALE_FACTOR⟩

/-- One iteration of the accumulator (c.py lines 114-118): the raw step,
then the conditional rescale when `b > THRESHOLD`.  Returns the new
registers, the produced value (the new `b`), and whether a rescale fired. -/
def advance (s : FibState) : FibState × ℚ × Bool :=
  if (rawStep s).b > THRESHOLD then
    (rescale (rawStep s), (rescale (rawStep s)).b, true)
  else (rawStep s, (rawStep s).b, false)

/-- The register part of `advance`. -/
def stepState (s : FibState) : FibState := (advance s).1

/-- Registers after `n` accumulator iterations starting from `initFib`. -/
def stateAt (n : Nat) : FibState := stepState^[n] initFib

/-- The value produced by iteration `n` (zero-indexed): the `b` register
after that iteration's step and optional rescale. -/
def valueAt (n : Nat) : ℚ := (advance (stateAt n)).2.1

/-- Whether iteration `n` fired a rescale event. -/
def rescaledAt (n : Nat) : Bool := (advance (stateAt n)).2.2

/-- Registers together with the running count of rescale events
(`local_scale` in c.py) after `k` accumulator iterations. -/
def accPair : Nat → FibState × Nat
  | 0 => (initFib, 0)
  | k + 1 =>
    let p := accPair k
    let r := advance p.1
    (r.1, p.2 + (if r.2.2 then 1 else 0))

/-! ## Monitor (memory_monitor in c.py / FN.py) -/

/-- The two peak registers `max_mem_record`, `max_cpu_record`, both
initialised to `0.0` (c.py lines 139-140). -/
structure MonPeaks where
  maxMem : ℚ
  maxCpu : ℚ
deriving DecidableEq, Repr

/-- One successful monitor tick (c.py lines 35-61): update the memory peak,
then the CPU peak, then decide the ceiling check `mem_percent >=
MEMORY_LIMIT_PERCENT`.  Returns the new peaks and whether the tick set the
stop signal and broke out of the loop. -/
def monitorTick (limit : ℚ) (p : MonPeaks) (cpu mem : ℚ) : MonPeaks × Bool :=
  (⟨if mem > p.maxMem then mem else p.maxMem,
    if cpu > p.maxCpu then cpu else p.maxCpu⟩,
    if mem ≥ limit then true else false)

/-- The monitor loop (c.py lines 31-65) fed a finite list of `(cpu, mem)`
telemetry samples: process samples in order, stopping (and setting the stop
signal, returned as the boolean) at the first sample whose memory
percentage reaches the limit; if the samples run out first, the loop is
still running and the signal was never set. -/
def monitorRun (limit : ℚ) : MonPeaks → List (ℚ × ℚ) → MonPeaks × Bool
  | p, [] => (p, false)
  | p, (c, m) :: rest =>
    if (monitorTick limit p c m).2 then ((monitorTick limit p c m).1, true)
    else monitorRun limit (monitorTick limit p c m).1 rest

/-- The samples the monitor loop actually processes out of a telemetry
list: every sample up to and including the first one whose memory
percentage reaches the limit. -/
def processedSamples (limit : ℚ) : List (ℚ × ℚ) → List (ℚ × ℚ)
  | [] => []
  | (c, m) :: rest =>
    if m ≥ limit then [(c, m)] else (c, m) :: processedSamples limit rest

/-- One monitor loop iteration with fallible sampling (c.py lines 31-65).
`none` models the telemetry call raising an exception, which lands in the
`except` handler (c.py lines 63-65): print and `break` — the stop event is
not touched.  Returns `(peaks, signalSetThisTick, exitedLoop)`. -/
def monitorIter (limit : ℚ) (p : MonPeaks) (sample : Option (ℚ × ℚ)) :
    MonPeaks × Bool × Bool :=
  match sample with
  | none => (p, false, true)
  | some (c, m) =>
    ((monitorTick limit p c m).1,
      (monitorTick limit p c m).2, (monitorTick limit p c m).2)

/-- One iteration of the b.py monitor loop (b.py lines 25-46), which tracks
only the memory peak; its `except` handler (b.py lines 45-46) is a bare
`break`, again leaving the stop event untouched.  Returns
`(maxMemRecord, signalSetThisTick, exitedLoop)`. -/
def monitorIterB (limit : ℚ) (maxMem : ℚ) (sample : Option ℚ) :
    ℚ × Bool × Bool :=
  match sample with
  | none => (maxMem, false, true)
  | some m =>
    (if m > maxMem then m else maxMem,
      if m ≥ limit then true else false, if m ≥ limit then true else false)

/-! ## Stop signal

`multiprocessing.Event` is set-once in this system: the monitor or a worker
calls `set()`, nothing ever calls `clear()`.  A run of the flag is hence
modelled as the monotone boolean stream that turns true at time `T`; a
loop's successive `is_set()` calls read the stream at increasing times. -/

/-- The write-once stop signal, set at check-time `T`: the reader's `k`-th
lookup sees `true` exactly when `T ≤ k`. -/
def stopAt (T : Nat) : Nat → Bool := fun t => decide (T ≤ t)

/-! ## Worker loops for the stop-observation bound (claim C3) -/

/-- The outer loop of `fibonacci_worker_safe` (b.py lines 59-75), counting
completed batches.  Each outer iteration reads the stop flag at the
`while` head (b.py line 59), runs one batch of `BATCH_SIZE` accumulator
iterations, then reads the flag again (b.py line 74).  `fuel` bounds how
long the process could possibly run; the result is the number of batches
executed. -/
def fibonacci_worker_safe_loop (stop : Nat → Bool) : Nat → Nat → Nat → Nat
  | 0, _, batches => batches
  | fuel + 1, t, batches =>
    if stop t then batches
    else if stop (t + 1) then batches + 1
    else fibonacci_worker_safe_loop stop fuel (t + 2) (batches + 1)

/-- The loop of `matrix_worker` (finumpy.py lines 89-106), counting
completed iterations (`local_count`).  Each iteration reads the stop flag
at the `while` head (line 89), performs the matrix product and append,
increments `local_count`, and on every tenth iteration reads the flag once
more (lines 104-106). -/
def matrix_worker_loop (stop : Nat → Bool) : Nat → Nat → Nat → Nat
  | 0, _, count => count
  | fuel + 1, t, count =>
    if stop t then count
    else if (count + 1) % 10 = 0 ∧ stop (t + 1) = true then count + 1
    else matrix_worker_loop stop fuel (t + 2) (count + 1)

/-- The loop of `burn` (d.py lines 6-11): `while True`, allocate and retain
a buffer, never consulting any stop signal (d.py has none).  The result is
the number of iterations executed within the given fuel: all of them. -/
def burn_loop : Nat → Nat
  | 0 => 0
  | fuel + 1 => 1 + burn_loop fuel

/-! ## The arithmetic worker `fibonacci_worker_real` (c.py lines 105-131) -/

/-- Local state of `fibonacci_worker_real`: the accumulator registers, the
tallies `local_added` and `local_scale`, and the length of `history`.
`steps` is instrumentation (not a Python variable): it counts how many
accumulator iterations have executed, so that properties about which
iterations are tallied can be stated. -/
structure WState where
  fib : FibState
  localAdded : Nat
  localScale : Nat
  histLen : Nat
  steps : Nat
deriving DecidableEq, Repr

/-- Worker-local state at function entry (c.py lines 106-109). -/
def initW : WState := ⟨initFib, 0, 0, 0, 0⟩

/-- Relation between a worker-local state and the pure accumulator run:
the registers and the `local_scale` tally agree with `accPair` at the
number of executed iterations, and `local_added` — bumped only by whole
batches — is a multiple of `BATCH_SIZE` that never exceeds the number of
executed iterations. -/
def WInv (w : WState) : Prop :=
  w.fib = (accPair w.steps).1 ∧ w.localScale = (accPair w.steps).2 ∧
    w.localAdded % BATCH_SIZE = 0 ∧ w.localAdded ≤ w.steps

/-- The arithmetic part of one inner iteration (c.py lines 114-118):
advance the accumulator registers and count a rescale into `local_scale`
when one fires.  `steps` is the instrumentation counter. -/
def stepW (w : WState) : WState :=
  { w with
    fib := (advance w.fib).1
    localScale := w.localScale + (if (advance w.fib).2.2 then 1 else 0)
    steps := w.steps + 1 }

/-- The inner `for _ in range(BATCH_SIZE)` loop body iterated `k` times
(c.py lines 113-122): advance the accumulator (counting rescales), then
allocate the 1 MB `bytearray` and append it to `history`.  `alloc i`
tells whether the allocation for the `i`-th retained buffer succeeds; a
failed request raises `MemoryError`, returned as `Except.error` carrying
the local state at the moment of the raise (the iteration's arithmetic —
including a rescale tally — has already happened, its buffer has not been
appended). -/
def runBatch (alloc : Nat → Bool) : Nat → WState → Except WState WState
  | 0, w => .ok w
  | k + 1, w =>
    if alloc (stepW w).histLen then
      runBatch alloc k { stepW w with histLen := (stepW w).histLen + 1 }
    else .error (stepW w)

/-- The `while not stop_event.is_set()` loop of `fibonacci_worker_real`
(c.py lines 112-124): run batches until the stop flag is observed, the
fuel runs out, or a batch raises `MemoryError`.  After a completed batch,
`local_added += BATCH_SIZE` (c.py line 124).  Returns the final local
state and whether `MemoryError` was raised. -/
def runWorker (alloc stop : Nat → Bool) : Nat → Nat → WState → WState × Bool
  | 0, _, w => (w, false)
  | fuel + 1, t, w =>
    if stop t then (w, false)
    else
      match runBatch alloc BATCH_SIZE w with
      | .ok w1 =>
        runWorker alloc stop fuel (t + 1)
          { w1 with localAdded := w1.localAdded + BATCH_SIZE }
      | .error w1 => (w1, true)

/-- The shared state touched by `fibonacci_worker_real`: the stop event and
the two shared counters (c.py lines 137-138, 147). -/
structure Shared where
  stopSet : Bool
  total : Nat
  scale : Nat
deriving DecidableEq, Repr

/-- The whole of `fibonacci_worker_real` (c.py lines 105-131): run the
loop; `except MemoryError: stop_event.set()` (lines 125-126); `finally:`
flush `local_added` and `local_scale` into the shared counters under their
locks (lines 127-131). -/
def fibonacci_worker_real (alloc stop : Nat → Bool) (fuel : Nat)
    (sh : Shared) : Shared :=
  { stopSet := if (runWorker alloc stop fuel 0 initW).2 then true else sh.stopSet
    total := sh.total + (runWorker alloc stop fuel 0 initW).1.localAdded
    scale := sh.scale + (runWorker alloc stop fuel 0 initW).1.localScale }

/-! ## The NumPy worker `numpy_stress_worker` (FN.py lines 53-85) -/

/-- Shared state touched by `numpy_stress_worker`: the stop event and the
`total_allocated_mb` counter (FN.py lines 94, 104). -/
structure SharedFN where
  stopSet : Bool
  totalMB : Nat
deriving DecidableEq, Repr

/-- The `while not stop_event.is_set()` loop of `numpy_stress_worker`
(FN.py lines 64-76), counting `local_count`.  Each iteration reads the
stop flag at the `while` head, performs the matrix product, allocates the
chunk (`alloc c` for the `c`-th chunk; failure raises `MemoryError`),
increments `local_count`, and re-reads the flag (line 76).  Returns the
final `local_count` and whether `MemoryError` was raised. -/
def numpyWorkerRun (alloc stop : Nat → Bool) : Nat → Nat → Nat → Nat × Bool
  | 0, _, count => (count, false)
  | fuel + 1, t, count =>
    if stop t then (count, false)
    else if alloc count then
      if stop (t + 1) then (count + 1, false)
      else numpyWorkerRun alloc stop fuel (t + 2) (count + 1)
    else (count, true)

/-- The whole of `numpy_stress_worker` (FN.py lines 53-85): run the loop;
`except MemoryError: stop_event.set()` (lines 78-79); `finally:` flush
`local_count * CHUNK_SIZE_MB` into the shared counter (lines 82-85). -/
def numpy_stress_worker (alloc stop : Nat → Bool) (fuel : Nat)
    (sh : SharedFN) : SharedFN :=
  { stopSet :=
      if (numpyWorkerRun alloc stop fuel 0 0).2 then true else sh.stopSet
    totalMB :=
      sh.totalMB + (numpyWorkerRun alloc stop fuel 0 0).1 * CHUNK_SIZE_MB }

/-! ## Harness order of events (c.py / FN.py `__main__`) -/

/-- The externally visible actions of a harness `__main__` block, in
program order. -/
inductive HEvent where
  | spawn : Nat → HEvent
  | runMonitor : HEvent
  | interruptStop : HEvent
  | joinWorker : Nat → HEvent
  | readCounters : HEvent
  | printSummary : HEvent
deriving DecidableEq, Repr

/-- The sequence of actions of c.py's `__main__` (lines 133-190): spawn
one worker per index (lines 152-155), run the monitor inline (line 158),
on `KeyboardInterrupt` set the stop event (lines 159-161), join every
worker (lines 164-165), then read the shared counters and print the
summary (lines 167-190). -/
def cHarnessTrace (n : Nat) (interrupted : Bool) : List HEvent :=
  (List.range n).map HEvent.spawn ++ [HEvent.runMonitor] ++
    (if interrupted then [HEvent.interruptStop] else []) ++
    (List.range n).map HEvent.joinWorker ++
    [HEvent.readCounters, HEvent.printSummary]

/-- The sequence of actions of FN.py's `__main__` (lines 87-132): same
shape — spawn (lines 108-111), monitor (line 114), interrupt handler
(lines 115-117), join every worker (lines 119-120), then read the counters
for the summary (lines 122-132). -/
def fnHarnessTrace (n : Nat) (interrupted : Bool) : List HEvent :=
  (List.range n).map HEvent.spawn ++ [HEvent.runMonitor] ++
    (if interrupted then [HEvent.interruptStop] else []) ++
    (List.range n).map HEvent.joinWorker ++
    [HEvent.readCounters, HEvent.printSummary]

/-! ## Worker counts spawned by each harness variant (claim C8) -/

/-- Workers spawned by c.py: `for i in range(cpu_count)` (lines 152-155). -/
def spawnCount_c (cpuCount : Nat) : Nat := (List.range cpuCount).length

/-- Workers spawned by b/b.py: `num_workers = cpu_count`, then
`for i in range(num_workers)` (lines 90, 106-109). -/
def spawnCount_b (cpuCount : Nat) : Nat := (List.range cpuCount).length

/-- Workers spawned by FN.py: `for i in range(cpu_count)` (lines 108-111). -/
def spawnCount_FN (cpuCount : Nat) : Nat := (List.range cpuCount).length

/-- Workers spawned by b/finumpy.py: `for i in range(cpu_count)`
(lines 141-144). -/
def spawnCount_finumpy (cpuCount : Nat) : Nat := (List.range cpuCount).length

/-- Workers spawned by d.py: `for _ in range(os.cpu_count()*2)`
(lines 14-15). -/
def spawnCount_d (cpuCount : Nat) : Nat := (List.range (cpuCount * 2)).length

/-! ## Accumulator lemmas -/

lemma scale_factor_pos : 0 < SCALE_FACTOR := by norm_num [SCALE_FACTOR]

lemma stateAt_zero : stateAt 0 = initFib := rfl

lemma stateAt_succ (n : Nat) : stateAt (n + 1) = stepState (stateAt n) :=
  Function.iterate_succ_apply' stepState n initFib

/-- `advance` on a step whose raw `b` exceeds the threshold. -/
lemma advance_of_over {s : FibState} (h : (rawStep s).b > THRESHOLD) :
    advance s = (rescale (rawStep s), (rescale (rawStep s)).b, true) := by
  rw [advance, if_pos h]

/-- `advance` on a step whose raw `b` stays within the threshold. -/
lemma advance_of_within {s : FibState} (h : ¬(rawStep s).b > THRESHOLD) :
    advance s = (rawStep s, (rawStep s).b, false) := by
  rw [advance, if_neg h]

/-- The produced value of an `advance` call is the new `b` register. -/
lemma advance_value_eq (s : FibState) : (advance s).2.1 = (advance s).1.b := by
  by_cases h : (rawStep s).b > THRESHOLD
  · rw [advance_of_over h]
  · rw [advance_of_within h]

lemma valueAt_eq (n : Nat) : valueAt n = (stateAt (n + 1)).b := by
  rw [valueAt, advance_value_eq, stateAt_succ]; rfl

lemma double_scale_le : 2 * THRESHOLD * SCALE_FACTOR ≤ THRESHOLD := by
  rw [THRESHOLD, SCALE_FACTOR]
  norm_num

/-- One `advance` call preserves `0 < a ≤ b ≤ THRESHOLD`. -/
lemma advance_inv {s : FibState} (ha : 0 < s.a) (hab : s.a ≤ s.b)
    (hb : s.b ≤ THRESHOLD) :
    0 < (stepState s).a ∧ (stepState s).a ≤ (stepState s).b ∧
      (stepState s).b ≤ THRESHOLD := by
  have hsf : (0 : ℚ) < SCALE_FACTOR := scale_factor_pos
  rw [stepState]
  by_cases h : (rawStep s).b > THRESHOLD
  · rw [advance_of_over h]
    simp only [rescale, rawStep] at h ⊢
    refine ⟨mul_pos (lt_of_lt_of_le ha hab) hsf, ?_, ?_⟩
    · exact mul_le_mul_of_nonneg_right (by linarith) hsf.le
    · have h2 : s.a + s.b ≤ 2 * THRESHOLD := by
        have : s.a ≤ THRESHOLD := le_trans hab hb
        linarith
      calc (s.a + s.b) * SCALE_FACTOR
          ≤ 2 * THRESHOLD * SCALE_FACTOR :=
            mul_le_mul_of_nonneg_right h2 hsf.le
        _ ≤ THRESHOLD := double_scale_le
  · rw [advance_of_within h]
    simp only [rawStep, not_lt] at h ⊢
    exact ⟨lt_of_lt_of_le ha hab, by linarith, h⟩

/-- The accumulator invariant `0 < a ≤ b ≤ THRESHOLD` holds after any
number of iterations. -/
lemma fib_inv (n : Nat) :
    0 < (stateAt n).a ∧ (stateAt n).a ≤ (stateAt n).b ∧
      (stateAt n).b ≤ THRESHOLD := by
  induction n with
  | zero => norm_num [stateAt_zero, initFib, THRESHOLD]
  | succ n ih =>
    rw [stateAt_succ]
    exact advance_inv ih.1 ih.2.1 ih.2.2

/-- C9: at every point of the overflow-safe accumulator's execution —
after any number of iterations, and also at the intermediate state right
after the raw step `(a, b) = (b, a + b)` and before a possible rescale —
the registers satisfy `0 < a ≤ b`.  (Initialization is the case `n = 0`;
preservation by the raw step and by the positive-factor rescale is what
the induction and the intermediate conjunct establish.) -/
theorem accumulator_registers_ordered (n : Nat) :
    (0 < (stateAt n).a ∧ (stateAt n).a ≤ (stateAt n).b) ∧
      (0 < (rawStep (stateAt n)).a ∧
        (rawStep (stateAt n)).a ≤ (rawStep (stateAt n)).b) := by
  obtain ⟨ha, hab, -⟩ := fib_inv n
  refine ⟨⟨ha, hab⟩, ?_, ?_⟩
  · exact lt_of_lt_of_le ha hab
  · show (stateAt n).b ≤ (stateAt n).a + (stateAt n).b
    linarith

/-- C1: along every sequence of `advance` steps from `a = b = 1`, the
produced value stays below the largest finite double (even the
pre-rescale intermediate `a + b` stays below `2 * THRESHOLD < DOUBLE_MAX`,
so the computation never reaches the floating-point infinity sentinel),
each produced value is strictly greater than the previous value — or,
on a step where a rescale fires, strictly greater than the previous value
multiplied by `SCALE_FACTOR` — and the final registers of the step have
the same `a/b` ratio as the pre-rescale registers. -/
theorem accumulator_advance_growth (n : Nat) :
    (rawStep (stateAt n)).b ≤ 2 * THRESHOLD ∧
      2 * THRESHOLD < DOUBLE_MAX ∧
      valueAt n ≤ THRESHOLD ∧
      (if rescaledAt n then (stateAt n).b * SCALE_FACTOR
        else (stateAt n).b) < valueAt n ∧
      (stateAt (n + 1)).a * (rawStep (stateAt n)).b =
        (rawStep (stateAt n)).a * (stateAt (n + 1)).b := by
  obtain ⟨ha, hab, hb⟩ := fib_inv n
  have hsf : (0 : ℚ) < SCALE_FACTOR := scale_factor_pos
  have hbT : (stateAt n).a ≤ THRESHOLD := le_trans hab hb
  refine ⟨?_, ?_, ?_, ?_, ?_⟩
  · show (stateAt n).a + (stateAt n).b ≤ 2 * THRESHOLD
    linarith
  · rw [THRESHOLD, DOUBLE_MAX]
    norm_num
  · rw [valueAt_eq]
    exact (fib_inv (n + 1)).2.2
  · rw [valueAt, rescaledAt]
    by_cases h : (rawStep (stateAt n)).b > THRESHOLD
    · rw [advance_of_over h]
      simp only [if_true, rescale, rawStep]
      exact mul_lt_mul_of_pos_right (by linarith) hsf
    · rw [advance_of_within h]
      simp only [if_false, rawStep, Bool.false_eq_true]
      linarith
  · rw [stateAt_succ, stepState]
    by_cases h : (rawStep (stateAt n)).b > THRESHOLD
    · rw [advance_of_over h]
      simp only [rescale, rawStep]
      ring
    · rw [advance_of_within h]

/-! ## Monitor ceiling check (claim C7) and error handling (claim C2) -/

lemma monitorTick_snd (l : ℚ) (p : MonPeaks) (cpu mem : ℚ) :
    (monitorTick l p cpu mem).2 = if mem ≥ l then true else false := rfl

/-- C7: a successful monitor tick sets the stop signal and breaks out of
its loop exactly when the sampled memory percentage reaches the configured
ceiling; the boundary is inclusive, and any sample strictly below the
ceiling leaves the signal unset on that tick. -/
theorem monitor_ceiling_inclusive (l : ℚ) (p : MonPeaks) (c m : ℚ) :
    ((monitorIter l p (some (c, m))).2.1 = true ↔ l ≤ m) ∧
      ((monitorIter l p (some (c, m))).2.2 = true ↔ l ≤ m) := by
  have h : (monitorIter l p (some (c, m))).2.1 = (monitorTick l p c m).2 := rfl
  have h2 : (monitorIter l p (some (c, m))).2.2 = (monitorTick l p c m).2 := rfl
  rw [h, h2, monitorTick_snd]
  constructor <;> · split_ifs with hge <;> simp [hge]

/-- C2 counterexample: a monitor tick whose telemetry sample raises (the
`none` sample) exits the loop but does not set the stop signal, refuting
the claim that the monitor sets the shared StopSignal on a sampling
error. -/
theorem monitor_error_no_stop_counterexample :
    (monitorIter MEMORY_LIMIT_PERCENT ⟨0, 0⟩ none).2.2 = true ∧
      ¬(monitorIter MEMORY_LIMIT_PERCENT ⟨0, 0⟩ none).2.1 = true := by
  constructor
  · rfl
  · intro h
    exact Bool.false_ne_true h

/-- C2 amended: when a telemetry sample raises an error inside the monitor
loop (in c.py or in b.py), the monitor exits its loop at once but leaves
the peaks and the shared StopSignal untouched — the signal is not set. -/
theorem monitor_error_exits_without_stop (l : ℚ) (p : MonPeaks) (mm : ℚ) :
    monitorIter l p none = (p, false, true) ∧
      monitorIterB l mm none = (mm, false, true) :=
  ⟨rfl, rfl⟩

/-! ## Worker counts (claim C8) -/

/-- C8 counterexample: on a 4-core host, d.py spawns 8 worker processes,
not 4 — the claim that every harness variant spawns exactly one worker per
logical core fails on d.py. -/
theorem one_worker_per_core_counterexample : spawnCount_d 4 ≠ 4 := by
  simp [spawnCount_d, List.length_range]

/-- C8 amended: the harness variants in c.py, b/b.py, FN.py and
b/finumpy.py each spawn exactly one worker per logical core; the d.py
variant spawns exactly two workers per logical core. -/
theorem workers_spawned_per_core (c : Nat) :
    spawnCount_c c = c ∧ spawnCount_b c = c ∧ spawnCount_FN c = c ∧
      spawnCount_finumpy c = c ∧ spawnCount_d c = 2 * c := by
  simp [spawnCount_c, spawnCount_b, spawnCount_FN, spawnCount_finumpy,
    spawnCount_d, List.length_range, Nat.mul_comm]

/-! ## Stop-signal observation bounds (claim C3) -/

lemma burn_loop_eq (fuel : Nat) : burn_loop fuel = fuel := by
  induction fuel with
  | zero => rfl
  | succ fuel ih => rw [burn_loop, ih, Nat.add_comm]

lemma fib_loop_le (T : Nat) :
    ∀ fuel t b, fibonacci_worker_safe_loop (stopAt T) fuel t b ≤ b + (T - t) := by
  intro fuel
  induction fuel with
  | zero =>
    intro t b
    rw [fibonacci_worker_safe_loop]
    exact Nat.le_add_right b (T - t)
  | succ fuel ih =>
    intro t b
    rw [fibonacci_worker_safe_loop]
    split_ifs with h1 h2
    · exact Nat.le_add_right b (T - t)
    · simp only [stopAt, decide_eq_true_eq] at h1 h2
      omega
    · refine le_trans (ih (t + 2) (b + 1)) ?_
      simp only [stopAt, decide_eq_true_eq] at h1 h2
      omega

lemma matrix_loop_le (T : Nat) :
    ∀ fuel t c, matrix_worker_loop (stopAt T) fuel t c ≤ c + (T - t) := by
  intro fuel
  induction fuel with
  | zero =>
    intro t c
    rw [matrix_worker_loop]
    exact Nat.le_add_right c (T - t)
  | succ fuel ih =>
    intro t c
    rw [matrix_worker_loop]
    split_ifs with h1 h2
    · exact Nat.le_add_right c (T - t)
    · simp only [stopAt, decide_eq_true_eq] at h1 h2
      omega
    · refine le_trans (ih (t + 2) (c + 1)) ?_
      simp only [stopAt, decide_eq_true_eq] at h1
      omega

lemma numpy_loop_le (alloc : Nat → Bool) (T : Nat) :
    ∀ fuel t c, (numpyWorkerRun alloc (stopAt T) fuel t c).1 ≤ c + (T - t) := by
  intro fuel
  induction fuel with
  | zero =>
    intro t c
    rw [numpyWorkerRun]
    exact Nat.le_add_right c (T - t)
  | succ fuel ih =>
    intro t c
    rw [numpyWorkerRun]
    split_ifs with h1 h2 h3
    · exact Nat.le_add_right c (T - t)
    · show c + 1 ≤ c + (T - t)
      simp only [stopAt, decide_eq_true_eq] at h1 h3
      omega
    · refine le_trans (ih (t + 2) (c + 1)) ?_
      simp only [stopAt, decide_eq_true_eq] at h1
      omega
    · exact Nat.le_add_right c (T - t)

/-- C3 counterexample: the `burn` worker of d.py consults no stop signal
at all, so its loop admits no bound independent of how long the process is
allowed to run — it exhausts any fuel without exiting, refuting the claim
that every worker variant exits within a bounded number of iterations
once the signal is set. -/
theorem worker_bounded_exit_counterexample :
    ¬∃ B : Nat, ∀ fuel : Nat, burn_loop fuel ≤ B := by
  rintro ⟨B, hB⟩
  have h := hB (B + 1)
  rw [burn_loop_eq] at h
  omega

/-- C3 amended: the polling worker variants do observe the stop signal
within a bounded number of batches: when the write-once signal is set by
check-time `T`, `fibonacci_worker_safe` (b.py) runs at most `T` further
batches and `matrix_worker` (finumpy.py) at most `T` further iterations,
no matter how much fuel remains — whereas d.py's `burn` never polls any
signal and consumes all its fuel. -/
theorem worker_stop_observation (T fuel : Nat) :
    fibonacci_worker_safe_loop (stopAt T) fuel 0 0 ≤ T ∧
      matrix_worker_loop (stopAt T) fuel 0 0 ≤ T ∧
      burn_loop fuel = fuel := by
  refine ⟨?_, ?_, burn_loop_eq fuel⟩
  · simpa using fib_loop_le T fuel 0 0
  · simpa using matrix_loop_le T fuel 0 0

/-! ## Monitor peak registers (claim C5) -/

lemma ite_gt_eq_max (x y : ℚ) : (if y > x then y else x) = max x y := by
  by_cases h : x < y
  · rw [if_pos h, max_eq_right h.le]
  · rw [if_neg h, max_eq_left (not_lt.mp h)]

lemma monitorTick_maxMem (l : ℚ) (p : MonPeaks) (c m : ℚ) :
    (monitorTick l p c m).1.maxMem = max p.maxMem m :=
  ite_gt_eq_max p.maxMem m

lemma monitorTick_maxCpu (l : ℚ) (p : MonPeaks) (c m : ℚ) :
    (monitorTick l p c m).1.maxCpu = max p.maxCpu c :=
  ite_gt_eq_max p.maxCpu c

lemma le_foldl_max (a : ℚ) (ls : List ℚ) : a ≤ ls.foldl max a := by
  induction ls generalizing a with
  | nil => exact le_refl a
  | cons x ls ih => exact le_trans (le_max_left a x) (ih (max a x))

lemma mem_le_foldl_max {x : ℚ} {ls : List ℚ} (hx : x ∈ ls) (a : ℚ) :
    x ≤ ls.foldl max a := by
  induction ls generalizing a with
  | nil => cases hx
  | cons y ls ih =>
    rcases List.mem_cons.mp hx with h | h
    · subst h
      exact le_trans (le_max_right a x) (le_foldl_max (max a x) ls)
    · exact ih h (max a y)

lemma foldl_max_mem (ls : List ℚ) (a : ℚ) :
    ls.foldl max a = a ∨ ls.foldl max a ∈ ls := by
  induction ls generalizing a with
  | nil => exact Or.inl rfl
  | cons x ls ih =>
    rcases ih (max a x) with h | h
    · rcases max_choice a x with hm | hm
      · exact Or.inl (by rw [List.foldl_cons, h, hm])
      · exact Or.inr (by rw [List.foldl_cons, h, hm]; exact List.mem_cons_self x ls)
    · exact Or.inr (List.mem_cons_of_mem x h)

lemma mem_of_mem_processedSamples (l : ℚ) :
    ∀ ss : List (ℚ × ℚ), ∀ x ∈ processedSamples l ss, x ∈ ss := by
  intro ss
  induction ss with
  | nil => intro x hx; cases hx
  | cons s rest ih =>
    intro x hx
    obtain ⟨c, m⟩ := s
    rw [processedSamples] at hx
    split_ifs at hx with h
    · rw [List.mem_singleton] at hx
      exact hx ▸ List.mem_cons_self _ _
    · rcases List.mem_cons.mp hx with h1 | h1
      · exact h1 ▸ List.mem_cons_self _ _
      · exact List.mem_cons_of_mem _ (ih x h1)

/-- The monitor's final peak registers are the `max`-folds of the
processed samples (the triggering sample included, since the peak update
happens before the ceiling check). -/
lemma monitorRun_fold (l : ℚ) :
    ∀ (ss : List (ℚ × ℚ)) (p : MonPeaks),
      (monitorRun l p ss).1.maxMem =
          ((processedSamples l ss).map Prod.snd).foldl max p.maxMem ∧
        (monitorRun l p ss).1.maxCpu =
          ((processedSamples l ss).map Prod.fst).foldl max p.maxCpu := by
  intro ss
  induction ss with
  | nil => intro p; exact ⟨rfl, rfl⟩
  | cons s rest ih =>
    intro p
    obtain ⟨c, m⟩ := s
    have hsnd := monitorTick_snd l p c m
    by_cases h : m ≥ l
    · have hc : (monitorTick l p c m).2 = true := by rw [hsnd, if_pos h]
      rw [monitorRun, if_pos hc, processedSamples, if_pos h]
      simp [monitorTick_maxMem, monitorTick_maxCpu]
    · have hc : ¬(monitorTick l p c m).2 = true := by
        rw [hsnd, if_neg h]
        exact Bool.false_ne_true
      rw [monitorRun, if_neg hc, processedSamples, if_neg h]
      simp only [List.map_cons, List.foldl_cons]
      rw [(ih (monitorTick l p c m).1).1, (ih (monitorTick l p c m).1).2,
        monitorTick_maxMem, monitorTick_maxCpu]
      exact ⟨rfl, rfl⟩

/-- C5: the two peak registers are monotonically non-decreasing under any
further samples, and after the monitor loop ends each equals the maximum
of the samples it processed — including the final sample that triggers the
ceiling stop, since the peak update precedes the ceiling check within a
tick. -/
theorem monitor_peak_registers (l : ℚ) (ss : List (ℚ × ℚ))
    (hmem : ∀ x ∈ ss, 0 ≤ x.2) (hcpu : ∀ x ∈ ss, 0 ≤ x.1)
    (hne : processedSamples l ss ≠ []) :
    (∀ (p : MonPeaks) (ss' : List (ℚ × ℚ)),
        p.maxMem ≤ (monitorRun l p ss').1.maxMem ∧
          p.maxCpu ≤ (monitorRun l p ss').1.maxCpu) ∧
      ((monitorRun l ⟨0, 0⟩ ss).1.maxMem ∈
            (processedSamples l ss).map Prod.snd ∧
        ∀ m ∈ (processedSamples l ss).map Prod.snd,
          m ≤ (monitorRun l ⟨0, 0⟩ ss).1.maxMem) ∧
      ((monitorRun l ⟨0, 0⟩ ss).1.maxCpu ∈
            (processedSamples l ss).map Prod.fst ∧
        ∀ c ∈ (processedSamples l ss).map Prod.fst,
          c ≤ (monitorRun l ⟨0, 0⟩ ss).1.maxCpu) := by
  have hfold := monitorRun_fold l ss ⟨0, 0⟩
  have hproc := mem_of_mem_processedSamples l ss
  have hmem' : ∀ m ∈ (processedSamples l ss).map Prod.snd, 0 ≤ m := by
    intro m hm
    obtain ⟨x, hx, hxm⟩ := List.mem_map.mp hm
    exact hxm ▸ hmem x (hproc x hx)
  have hcpu' : ∀ c ∈ (processedSamples l ss).map Prod.fst, 0 ≤ c := by
    intro c hc
    obtain ⟨x, hx, hxc⟩ := List.mem_map.mp hc
    exact hxc ▸ hcpu x (hproc x hx)
  refine ⟨?_, ⟨?_, ?_⟩, ⟨?_, ?_⟩⟩
  · intro p ss'
    have h := monitorRun_fold l ss' p
    exact ⟨h.1 ▸ le_foldl_max p.maxMem _, h.2 ▸ le_foldl_max p.maxCpu _⟩
  · rw [hfold.1]
    rcases foldl_max_mem ((processedSamples l ss).map Prod.snd) 0 with h | h
    · obtain ⟨x, hx⟩ := List.exists_mem_of_ne_nil _ hne
      have hx2 : x.2 ∈ (processedSamples l ss).map Prod.snd :=
        List.mem_map_of_mem Prod.snd hx
      have hle : x.2 ≤ ((processedSamples l ss).map Prod.snd).foldl max 0 :=
        mem_le_foldl_max hx2 0
      have hx0 : x.2 = 0 := le_antisymm (h ▸ hle) (hmem' x.2 hx2)
      rw [h, ← hx0]
      exact hx2
    · exact h
  · intro m hm
    rw [hfold.1]
    exact mem_le_foldl_max hm 0
  · rw [hfold.2]
    rcases foldl_max_mem ((processedSamples l ss).map Prod.fst) 0 with h | h
    · obtain ⟨x, hx⟩ := List.exists_mem_of_ne_nil _ hne
      have hx1 : x.1 ∈ (processedSamples l ss).map Prod.fst :=
        List.mem_map_of_mem Prod.fst hx
      have hle : x.1 ≤ ((processedSamples l ss).map Prod.fst).foldl max 0 :=
        mem_le_foldl_max hx1 0
      have hx0 : x.1 = 0 := le_antisymm (h ▸ hle) (hcpu' x.1 hx1)
      rw [h, ← hx0]
      exact hx1
    · exact h
  · intro c hc
    rw [hfold.2]
    exact mem_le_foldl_max hc 0

/-! ## Worker tallies and MemoryError handling (claims C4 and C10) -/

lemma accPair_succ (k : Nat) :
    accPair (k + 1) =
      ((advance (accPair k).1).1,
        (accPair k).2 + (if (advance (accPair k).1).2.2 then 1 else 0)) := rfl

/-- The arithmetic step keeps the local state in sync with the pure
accumulator run. -/
lemma stepW_sync {w : WState} (h1 : w.fib = (accPair w.steps).1)
    (h2 : w.localScale = (accPair w.steps).2) :
    (stepW w).fib = (accPair (stepW w).steps).1 ∧
      (stepW w).localScale = (accPair (stepW w).steps).2 := by
  constructor
  · show (advance w.fib).1 = (accPair (w.steps + 1)).1
    rw [accPair_succ, h1]
  · show w.localScale + (if (advance w.fib).2.2 then 1 else 0) =
      (accPair (w.steps + 1)).2
    rw [accPair_succ, h1, h2]

lemma runBatch_spec (alloc : Nat → Bool) :
    ∀ (k : Nat) (w : WState),
      w.fib = (accPair w.steps).1 → w.localScale = (accPair w.steps).2 →
      (∀ w', runBatch alloc k w = .ok w' →
        w'.fib = (accPair w'.steps).1 ∧ w'.localScale = (accPair w'.steps).2 ∧
          w'.localAdded = w.localAdded ∧ w'.steps = w.steps + k) ∧
      (∀ w', runBatch alloc k w = .error w' →
        w'.fib = (accPair w'.steps).1 ∧ w'.localScale = (accPair w'.steps).2 ∧
          w'.localAdded = w.localAdded ∧ w.steps < w'.steps) := by
  intro k
  induction k with
  | zero =>
    intro w h1 h2
    constructor
    · intro w' hok
      rw [runBatch] at hok
      cases hok
      exact ⟨h1, h2, rfl, rfl⟩
    · intro w' herr
      rw [runBatch] at herr
      cases herr
  | succ k ih =>
    intro w h1 h2
    have hsync := stepW_sync h1 h2
    by_cases ha : alloc (stepW w).histLen = true
    · have hk : runBatch alloc (k + 1) w =
          runBatch alloc k { stepW w with histLen := (stepW w).histLen + 1 } := by
        rw [runBatch, if_pos ha]
      have ih' := ih { stepW w with histLen := (stepW w).histLen + 1 }
        hsync.1 hsync.2
      constructor
      · intro w' hok
        rw [hk] at hok
        obtain ⟨g1, g2, g3, g4⟩ := ih'.1 w' hok
        refine ⟨g1, g2, g3, ?_⟩
        show w'.steps = w.steps + (k + 1)
        have : ({ stepW w with histLen := (stepW w).histLen + 1 } : WState).steps
            = w.steps + 1 := rfl
        omega
      · intro w' herr
        rw [hk] at herr
        obtain ⟨g1, g2, g3, g4⟩ := ih'.2 w' herr
        refine ⟨g1, g2, g3, ?_⟩
        have : ({ stepW w with histLen := (stepW w).histLen + 1 } : WState).steps
            = w.steps + 1 := rfl
        omega
    · have hk : runBatch alloc (k + 1) w = .error (stepW w) := by
        rw [runBatch, if_neg ha]
      constructor
      · intro w' hok
        rw [hk] at hok
        cases hok
      · intro w' herr
        rw [hk] at herr
        cases herr
        exact ⟨hsync.1, hsync.2, rfl, Nat.lt_succ_self w.steps⟩

lemma runWorker_spec (alloc stop : Nat → Bool) :
    ∀ (fuel t : Nat) (w : WState), WInv w →
      WInv (runWorker alloc stop fuel t w).1 ∧
        ((runWorker alloc stop fuel t w).2 = true →
          (runWorker alloc stop fuel t w).1.localAdded <
            (runWorker alloc stop fuel t w).1.steps) := by
  intro fuel
  induction fuel with
  | zero =>
    intro t w hw
    rw [runWorker]
    exact ⟨hw, by simp⟩
  | succ fuel ih =>
    intro t w hw
    obtain ⟨h1, h2, h3, h4⟩ := hw
    by_cases hs : stop t = true
    · have hk : runWorker alloc stop (fuel + 1) t w = (w, false) := by
        rw [runWorker, if_pos hs]
      rw [hk]
      exact ⟨⟨h1, h2, h3, h4⟩, by simp⟩
    · cases hb : runBatch alloc BATCH_SIZE w with
      | ok w1 =>
        have hk : runWorker alloc stop (fuel + 1) t w =
            runWorker alloc stop fuel (t + 1)
              { w1 with localAdded := w1.localAdded + BATCH_SIZE } := by
          rw [runWorker, if_neg hs, hb]
        obtain ⟨g1, g2, g3, g4⟩ := (runBatch_spec alloc BATCH_SIZE w h1 h2).1 w1 hb
        rw [hk]
        refine ih (t + 1) _ ⟨g1, g2, ?_, ?_⟩
        · show (w1.localAdded + BATCH_SIZE) % BATCH_SIZE = 0
          simp only [BATCH_SIZE] at h3 ⊢
          omega
        · show w1.localAdded + BATCH_SIZE ≤ w1.steps
          omega
      | error w1 =>
        have hk : runWorker alloc stop (fuel + 1) t w = (w1, true) := by
          rw [runWorker, if_neg hs, hb]
        obtain ⟨g1, g2, g3, g4⟩ := (runBatch_spec alloc BATCH_SIZE w h1 h2).2 w1 hb
        rw [hk]
        refine ⟨⟨g1, g2, ?_, ?_⟩, fun _ => ?_⟩
        · show w1.localAdded % BATCH_SIZE = 0
          simp only [BATCH_SIZE] at h3 ⊢
          omega
        · show w1.localAdded ≤ w1.steps
          omega
        · show w1.localAdded < w1.steps
          omega

lemma initW_inv : WInv initW :=
  ⟨rfl, rfl, by simp [initW], Nat.le_refl 0⟩

/-- C10: an arithmetic-strategy worker flushes into the shared counters a
units tally that is a multiple of `BATCH_SIZE`, because `local_added` is
bumped only after a whole batch; the flushed rescale tally equals the
rescale count of the pure accumulator run over every iteration actually
executed (partial final batch included); and on a `MemoryError` run the
flushed units are strictly fewer than the executed iterations — the
interrupted batch's units are excluded even though its rescales are
counted. -/
theorem worker_units_batch_multiple (alloc stop : Nat → Bool) (fuel : Nat)
    (sh : Shared) :
    (fibonacci_worker_real alloc stop fuel sh).total =
        sh.total + (runWorker alloc stop fuel 0 initW).1.localAdded ∧
      (fibonacci_worker_real alloc stop fuel sh).scale =
        sh.scale + (runWorker alloc stop fuel 0 initW).1.localScale ∧
      (runWorker alloc stop fuel 0 initW).1.localAdded % BATCH_SIZE = 0 ∧
      (runWorker alloc stop fuel 0 initW).1.localScale =
        (accPair (runWorker alloc stop fuel 0 initW).1.steps).2 ∧
      ((runWorker alloc stop fuel 0 initW).2 = true →
        (runWorker alloc stop fuel 0 initW).1.localAdded <
          (runWorker alloc stop fuel 0 initW).1.steps) := by
  obtain ⟨⟨g1, g2, g3, g4⟩, g5⟩ := runWorker_spec alloc stop fuel 0 initW initW_inv
  exact ⟨rfl, rfl, g3, g2, g5⟩

/-- C4: when a worker's allocation raises `MemoryError`, the worker sets
the shared stop signal and still flushes the local tallies it accumulated
into the shared counters before exiting — for the arithmetic worker of
c.py (units and rescales) and for the NumPy worker of FN.py (allocated
megabytes). -/
theorem worker_memory_error_flush :
    (∀ (alloc stop : Nat → Bool) (fuel : Nat) (sh : Shared),
      (runWorker alloc stop fuel 0 initW).2 = true →
        (fibonacci_worker_real alloc stop fuel sh).stopSet = true ∧
          (fibonacci_worker_real alloc stop fuel sh).total =
            sh.total + (runWorker alloc stop fuel 0 initW).1.localAdded ∧
          (fibonacci_worker_real alloc stop fuel sh).scale =
            sh.scale + (runWorker alloc stop fuel 0 initW).1.localScale) ∧
      (∀ (alloc stop : Nat → Bool) (fuel : Nat) (sh : SharedFN),
        (numpyWorkerRun alloc stop fuel 0 0).2 = true →
          (numpy_stress_worker alloc stop fuel sh).stopSet = true ∧
            (numpy_stress_worker alloc stop fuel sh).totalMB =
              sh.totalMB +
                (numpyWorkerRun alloc stop fuel 0 0).1 * CHUNK_SIZE_MB) := by
  constructor
  · intro alloc stop fuel sh h
    refine ⟨?_, rfl, rfl⟩
    show (if (runWorker alloc stop fuel 0 initW).2 then true else sh.stopSet) =
      true
    simp [h]
  · intro alloc stop fuel sh h
    refine ⟨?_, rfl⟩
    show (if (numpyWorkerRun alloc stop fuel 0 0).2 then true else sh.stopSet) =
      true
    simp [h]

/-! ## Harness ordering: joins before counter reads (claim C6) -/

lemma index_lt_of_not_mem_right {α : Type} {l1 l2 : List α} {i : Nat} {x : α}
    (hget : (l1 ++ l2)[i]? = some x) (hx : x ∉ l2) : i < l1.length := by
  by_contra hge
  push_neg at hge
  rw [List.getElem?_append_right hge] at hget
  exact hx (List.getElem?_mem hget)

lemma index_ge_of_not_mem_left {α : Type} {l1 l2 : List α} {j : Nat} {x : α}
    (hget : (l1 ++ l2)[j]? = some x) (hx : x ∉ l1) : l1.length ≤ j := by
  by_contra hlt
  push_neg at hlt
  rw [List.getElem?_append_left hlt] at hget
  exact hx (List.getElem?_mem hget)

/-- In the c.py harness trace every join of a worker happens strictly
before the read of the shared counters. -/
lemma cHarnessTrace_join_before_read (n : Nat) (intr : Bool) (i j k : Nat)
    (hi : (cHarnessTrace n intr)[i]? = some (HEvent.joinWorker k))
    (hj : (cHarnessTrace n intr)[j]? = some HEvent.readCounters) : i < j := by
  have htr : cHarnessTrace n intr =
      ((List.range n).map HEvent.spawn ++ [HEvent.runMonitor] ++
          (if intr then [HEvent.interruptStop] else []) ++
          (List.range n).map HEvent.joinWorker) ++
        [HEvent.readCounters, HEvent.printSummary] := by
    simp only [cHarnessTrace, List.append_assoc]
  rw [htr] at hi hj
  have hi' := index_lt_of_not_mem_right hi (by simp)
  have hj' := index_ge_of_not_mem_left hj ?_
  · omega
  · cases intr <;> simp

lemma fnHarnessTrace_eq (n : Nat) (intr : Bool) :
    fnHarnessTrace n intr = cHarnessTrace n intr := rfl

/-- C6: in both harness variants (c.py and FN.py), on both the
ceiling-reached path and the operator-interrupt path, every read of the
shared counters occurs strictly after every worker join — the final
summary is computed only once all workers have exited. -/
theorem harness_reads_counters_after_joins :
    (∀ (n : Nat) (intr : Bool) (i j k : Nat),
      (cHarnessTrace n intr)[i]? = some (HEvent.joinWorker k) →
        (cHarnessTrace n intr)[j]? = some HEvent.readCounters → i < j) ∧
      (∀ (n : Nat) (intr : Bool) (i j k : Nat),
        (fnHarnessTrace n intr)[i]? = some (HEvent.joinWorker k) →
          (fnHarnessTrace n intr)[j]? = some HEvent.readCounters → i < j) := by
  constructor
  · exact fun n intr i j k hi hj => cHarnessTrace_join_before_read n intr i j k hi hj
  · intro n intr i j k hi hj
    rw [fnHarnessTrace_eq] at hi hj
    exact cHarnessTrace_join_before_read n intr i j k hi hj

/-! ## Concrete witnesses -/

lemma runBatch_all_alloc_fail (k : Nat) (w : WState) (hk : k ≠ 0) :
    runBatch (fun _ => false) k w = .error (stepW w) := by
  cases k with
  | zero => exact absurd rfl hk
  | succ k =>
    rw [runBatch]
    simp

lemma runWorker_error_step (alloc stop : Nat → Bool) (fuel t : Nat)
    (w w1 : WState) (hs : ¬stop t = true)
    (hb : runBatch alloc BATCH_SIZE w = .error w1) :
    runWorker alloc stop (fuel + 1) t w = (w1, true) := by
  rw [runWorker, if_neg hs, hb]

lemma runWorker_fail_fast :
    runWorker (fun _ => false) (fun _ => false) 1 0 initW =
      (stepW initW, true) := by
  show runWorker (fun _ => false) (fun _ => false) (0 + 1) 0 initW = _
  exact runWorker_error_step _ _ 0 0 initW (stepW initW) (by simp)
    (runBatch_all_alloc_fail BATCH_SIZE initW (by simp [BATCH_SIZE]))

lemma numpyWorkerRun_fail_fast :
    numpyWorkerRun (fun _ => false) (fun _ => false) 1 0 0 = (0, true) := by
  show numpyWorkerRun (fun _ => false) (fun _ => false) (0 + 1) 0 0 = _
  rw [numpyWorkerRun]
  simp

/-- C4 witness: with every allocation failing and the stop signal never
set, both workers raise `MemoryError` on their first iteration, set the
stop flag, and flush their (empty so far) tallies. -/
theorem worker_memory_error_flush_witness :
    (runWorker (fun _ => false) (fun _ => false) 1 0 initW).2 = true ∧
      (fibonacci_worker_real (fun _ => false) (fun _ => false) 1
          ⟨false, 0, 0⟩).stopSet = true ∧
      (numpyWorkerRun (fun _ => false) (fun _ => false) 1 0 0).2 = true ∧
      (numpy_stress_worker (fun _ => false) (fun _ => false) 1
          ⟨false, 0⟩).stopSet = true := by
  have hF : (runWorker (fun _ => false) (fun _ => false) 1 0 initW).2 = true := by
    rw [runWorker_fail_fast]
  have hN : (numpyWorkerRun (fun _ => false) (fun _ => false) 1 0 0).2 = true := by
    rw [numpyWorkerRun_fail_fast]
  exact ⟨hF, (worker_memory_error_flush.1 _ _ 1 ⟨false, 0, 0⟩ hF).1, hN,
    (worker_memory_error_flush.2 _ _ 1 ⟨false, 0⟩ hN).1⟩

/-- C10 witness: on the concrete `MemoryError` run where the very first
allocation fails, the worker has executed one accumulator iteration but
tallies zero units — strictly fewer units than iterations, as the theorem
states for every `MemoryError` run. -/
theorem worker_units_batch_multiple_witness :
    (runWorker (fun _ => false) (fun _ => false) 1 0 initW).2 = true ∧
      (runWorker (fun _ => false) (fun _ => false) 1 0 initW).1.localAdded <
        (runWorker (fun _ => false) (fun _ => false) 1 0 initW).1.steps := by
  have hF : (runWorker (fun _ => false) (fun _ => false) 1 0 initW).2 = true := by
    rw [runWorker_fail_fast]
  exact ⟨hF,
    (worker_units_batch_multiple (fun _ => false) (fun _ => false) 1
      ⟨false, 0, 0⟩).2.2.2.2 hF⟩

/-- C5 witness: feeding the monitor the sample sequence
`[(10, 50), (20, 96)]` with ceiling `95`, both samples are processed (the
second triggers the stop) and the final memory peak is one of the
processed samples, as the theorem states. -/
theorem monitor_peak_registers_witness :
    (∀ x ∈ [((10 : ℚ), (50 : ℚ)), (20, 96)], 0 ≤ x.2) ∧
      processedSamples 95 [((10 : ℚ), (50 : ℚ)), (20, 96)] ≠ [] ∧
      (monitorRun 95 ⟨0, 0⟩ [((10 : ℚ), (50 : ℚ)), (20, 96)]).1.maxMem ∈
        (processedSamples 95 [((10 : ℚ), (50 : ℚ)), (20, 96)]).map Prod.snd := by
  have h1 : ∀ x ∈ [((10 : ℚ), (50 : ℚ)), (20, 96)], 0 ≤ x.2 := by norm_num
  have h2 : ∀ x ∈ [((10 : ℚ), (50 : ℚ)), (20, 96)], 0 ≤ x.1 := by norm_num
  have h3 : processedSamples 95 [((10 : ℚ), (50 : ℚ)), (20, 96)] ≠ [] := by
    norm_num [processedSamples]
    simp
  exact ⟨h1, h3, ((monitor_peak_registers 95 _ h1 h2 h3).2.1).1⟩

/-- C6 witness: in the concrete one-worker, no-interrupt harness trace,
the join (index 2) indeed precedes the counter read (index 3). -/
theorem harness_reads_counters_after_joins_witness :
    (cHarnessTrace 1 false)[2]? = some (HEvent.joinWorker 0) ∧
      (cHarnessTrace 1 false)[3]? = some HEvent.readCounters ∧ (2 : Nat) < 3 := by
  have h1 : (cHarnessTrace 1 false)[2]? = some (HEvent.joinWorker 0) := rfl
  have h2 : (cHarnessTrace 1 false)[3]? = some HEvent.readCounters := rfl
  exact ⟨h1, h2, harness_reads_counters_after_joins.1 1 false 2 3 0 h1 h2⟩

end StarBed
